import Mathlib

/-!
Verification development for the `appman` application manager.

The definitions below are a shallow embedding of the program's core:
* the persisted ledger (`data.json`) as an association-list document,
* `ApplicationManager._read_json` / `_write_json` / `__init__` over a small
  filesystem model,
* `ApplicationManager.install` / `update` / `remove` as fuel-indexed state
  transformers (the Python `install` recurses on dependences),
* `Base_Profile.install` / `update` / `remove` / `_manager` return shapes,
* the `profiles` package startup catalogue validation.

Python dicts are modelled as association lists with unique keys
(`dictGet` / `dictSet` / `dictPop`), Python lists as Lean lists, and
exceptions as explicit result constructors.
-/

namespace Appman

/-! ## Python dict / list primitives -/

/-- Lookup `d[k]`, returning `none` when the key is missing (first matching
key, as in a dict where keys are unique). -/
def dictGet (k : String) : List (String × α) → Option α
  | [] => none
  | (k', v) :: l => if k' = k then some v else dictGet k l

/-- Assignment `d[k] = v` (and `d.update`): replace the value of an existing key in
place, otherwise append the new binding. -/
def dictSet (k : String) (v : α) : List (String × α) → List (String × α)
  | [] => [(k, v)]
  | (k', v') :: l => if k' = k then (k, v) :: l else (k', v') :: dictSet k v l

/-- Python `d.pop(k, None)`: drop the binding of `k` if present. -/
def dictPop (k : String) : List (String × α) → List (String × α)
  | [] => []
  | (k', v') :: l => if k' = k then l else (k', v') :: dictPop k l

/-- The keys of a dict, in insertion order. -/
def dictKeys (l : List (String × α)) : List String := l.map Prod.fst

/-- Python `list.remove(x)` with the raised `ValueError` swallowed: drop the
first occurrence of `x` if any. -/
def listRemove (x : String) : List String → List String
  | [] => []
  | y :: l => if y = x then l else y :: listRemove x l

/-- Number of occurrences of `x` in `l`. -/
def countOcc (x : String) (l : List String) : Nat :=
  (l.filter (fun y => y = x)).length

/-! ## The ledger document -/

/-- One `InstalledRecord` of the persisted ledger: the value stored at
`db['installed'][name]` (built by `Base_Profile.prog_data`). -/
structure InstalledRecord where
  executables : List String
  path : String
  version : String
deriving DecidableEq

/-- The ledger document `self._db`: `{'installed': {...}, 'dependences': {...}}`. -/
structure DB where
  installed : List (String × InstalledRecord)
  dependences : List (String × List String)
deriving DecidableEq

/-- The fresh document `__init__` starts from. -/
def emptyDB : DB := { installed := [], dependences := [] }

/-- Method `ApplicationManager._add_dependences`: for each dependency `dep`,
create `dependences[dep] = [prog_name]` when absent, else append `prog_name`
unless already present.  (The `sorted(...)` call in the source discards its
result, so it has no effect.) -/
def add_dependences (prog_name : String) (dependences : List String)
    (d : List (String × List String)) : List (String × List String) :=
  dependences.foldl
    (fun d dep =>
      match dictGet dep d with
      | none => dictSet dep [prog_name] d
      | some l => if prog_name ∈ l then d else dictSet dep (l ++ [prog_name]) d)
    d

/-! ## Manager run state

Beyond the in-memory document `self._db`, the run state records the
externally observable effects the claims talk about: the successive
`_write_json` flushes (`saved`), the profile install actions that actually
ran (`trace`, one entry per `p.install()` call), and the messages printed
(`out`). -/

/-- A message printed by the manager (constructors carry the data that the
`format` calls interpolate). -/
inductive Msg
  | alreadyInstalled (prog version : String)
  | checkingDeps (prog : String)
  | depFailed (prog dep : String)
  | cannotUpdateNotInstalled (prog : String)
  | cannotRemoveNotInstalled (prog : String)
  | cannotRemoveNeeded (prog : String) (dependents : List String)
deriving DecidableEq

/-- The state threaded through the manager's methods. -/
structure St where
  db : DB
  saved : List DB
  trace : List String
  out : List Msg
deriving DecidableEq

/-- Append a printed message. -/
def addMsg (m : Msg) (st : St) : St := { st with out := st.out ++ [m] }

/-- Record one `p.install()` invocation. -/
def addTrace (p : String) (st : St) : St := { st with trace := st.trace ++ [p] }

/-- One successful `_write_json` flush of the current document (the
file-level mechanics of `_write_json` are modelled separately below). -/
def flushDB (st : St) : St := { st with saved := st.saved ++ [st.db] }

/-- The initial run state over an empty ledger. -/
def st0 : St := { db := emptyDB, saved := [], trace := [], out := [] }

/-- Behaviour of `p.install()` for a given program: it raises, succeeds
(returning a truthy `res[0]` and the program's `prog_data` record), or
returns a falsy `res[0]`. -/
inductive ActOutcome
  | raises
  | success (r : InstalledRecord)
  | failure
deriving DecidableEq

/-- Behaviour of `p.update()`: raises, succeeds with a new record
(truthy `res[0]`), or reports no version change (falsy `res[0]`). -/
inductive UpdOutcome
  | raises
  | changed (r : InstalledRecord)
  | unchanged
deriving DecidableEq

/-- Behaviour of `p.remove()`: raises, succeeds (truthy `res[0]`),
or returns a falsy `res[0]`. -/
inductive RemOutcome
  | raises
  | success
  | failure
deriving DecidableEq

/-- The environment of a run: the registered profiles (`get_profile`
raises `KeyError` outside `registry`), each profile's `dependences`
(in iteration order), and the outcome of each profile's external
install/update/remove action. -/
structure Env where
  registry : List String
  deps : String → List String
  installAct : String → ActOutcome
  updateAct : String → UpdOutcome
  removeAct : String → RemOutcome

/-- Result of a manager method: the Python call either returned a bool or
raised an exception that propagates to the caller. -/
inductive PRes
  | raised
  | ret (b : Bool)
deriving DecidableEq

/-- The dependency loop of `ApplicationManager.install`:
`for dep in dependences: try: self.install(dep) except: print(...); return False`.
Returns `none` when the recursion fuel ran out inside a recursive call,
`some (true, st)` when some dependency raised (the loop aborts after
printing the attribution message), and `some (false, st)` when the loop
finished (each dependency call returned a bool, which the source ignores). -/
def runDeps (inst : String → St → Option (PRes × St)) (prog : String) :
    List String → St → Option (Bool × St)
  | [], st => some (false, st)
  | d :: ds, st =>
    match inst d st with
    | none => none
    | some (PRes.raised, st') => some (true, addMsg (Msg.depFailed prog d) st')
    | some (PRes.ret _, st') => runDeps inst prog ds st'

/-- Method `ApplicationManager.install`, indexed by recursion fuel (the source
recurses on dependences with no cycle guard, so no fuel bound suffices on a
cyclic registry; `none` means the fuel was exhausted). -/
def install (env : Env) : Nat → String → St → Option (PRes × St)
  | 0, _, _ => none
  | n + 1, prog, st =>
    match dictGet prog st.db.installed with
    | some r => some (PRes.ret false, addMsg (Msg.alreadyInstalled prog r.version) st)
    | none =>
      if prog ∈ env.registry then
        let ds := env.deps prog
        let st1 := if ds.isEmpty then st else addMsg (Msg.checkingDeps prog) st
        match runDeps (install env n) prog ds st1 with
        | none => none
        | some (true, st2) => some (PRes.ret false, st2)
        | some (false, st2) =>
          let st3 := addTrace prog st2
          match env.installAct prog with
          | ActOutcome.raises => some (PRes.raised, st3)
          | ActOutcome.failure => some (PRes.ret false, st3)
          | ActOutcome.success r =>
            let db1 : DB :=
              { installed := dictSet prog r st3.db.installed,
                dependences := add_dependences prog ds st3.db.dependences }
            some (PRes.ret true, flushDB { st3 with db := db1 })
      else some (PRes.raised, st)

/-- Method `ApplicationManager.update`. -/
def update (env : Env) (prog : String) (st : St) : PRes × St :=
  match dictGet prog st.db.installed with
  | none => (PRes.ret false, addMsg (Msg.cannotUpdateNotInstalled prog) st)
  | some _ =>
    if prog ∈ env.registry then
      match env.updateAct prog with
      | UpdOutcome.raises => (PRes.raised, st)
      | UpdOutcome.unchanged => (PRes.ret false, st)
      | UpdOutcome.changed r' =>
        let db1 : DB := { st.db with installed := dictSet prog r' st.db.installed }
        (PRes.ret true, flushDB { st with db := db1 })
    else (PRes.raised, st)

/-- Command `appman update all`: `appman_init` sets `args['programs']` to
`appman_wrapper.installed_programs` (the keys of the installed map at start)
and the main loop calls `update` on each, continuing past exceptions. -/
def updateAll (env : Env) (st : St) : St :=
  (dictKeys st.db.installed).foldl (fun s p => (update env p s).2) st

/-- Method `ApplicationManager.remove`. -/
def remove (env : Env) (prog : String) (st : St) : PRes × St :=
  match dictGet prog st.db.installed with
  | none => (PRes.ret false, addMsg (Msg.cannotRemoveNotInstalled prog) st)
  | some _ =>
    match dictGet prog st.db.dependences with
    | some (b :: bs) =>
      (PRes.ret false, addMsg (Msg.cannotRemoveNeeded prog (b :: bs)) st)
    | _ =>
      if prog ∈ env.registry then
        match env.removeAct prog with
        | RemOutcome.raises => (PRes.raised, st)
        | RemOutcome.failure => (PRes.ret false, st)
        | RemOutcome.success =>
          let db1 : DB :=
            { installed := dictPop prog st.db.installed,
              dependences :=
                (dictPop prog st.db.dependences).map
                  (fun kv => (kv.1, listRemove prog kv.2)) }
          (PRes.ret true, flushDB { st with db := db1 })
      else (PRes.raised, st)

/-! ## Filesystem-level model of `_read_json` / `_write_json` / `__init__`

A file either holds a complete serialized document (`full`), a partially
written serialization (`halfWritten`, e.g. a `json.dump` cut short), or
unparsable bytes (`corrupt`).  The filesystem tracks the primary DB path
(`data.json`), the temporary path (`data.json.tmp`) and whether the DB
directory is writable. -/

/-- Contents of a file at one of the two DB paths. -/
inductive Doc
  | full (d : DB)
  | halfWritten (d : DB)
  | corrupt
deriving DecidableEq

/-- The filesystem as seen by the manager. -/
structure FS where
  primary : Option Doc
  tmp : Option Doc
  dirWritable : Bool
deriving DecidableEq

/-- Errors raised during `ApplicationManager.__init__`. -/
inductive InitErr
  | progDB (msg : String)
  | implementation (missing : List String)
deriving DecidableEq

/-- The successive filesystem states traversed by `_write_json` writing
document `d`, starting from `fs` (each element is a point at which the
process could be killed):
1. `open(tmp, 'w')` + a partial `json.dump` → tmp half-written;
2. `json.dump` completed → tmp holds the full document;
3. `os.remove(primary)` → the primary path is gone (raises if absent,
   ending the sequence);
4. `os.rename(tmp, primary)` → the new document is at the primary path.
If the directory is not writable the initial `open` raises immediately. -/
def write_json_steps (fs : FS) (d : DB) : List FS :=
  if fs.dirWritable then
    let s1 : FS := { fs with tmp := some (Doc.halfWritten d) }
    let s2 : FS := { fs with tmp := some (Doc.full d) }
    match fs.primary with
    | none => [fs, s1, s2]
    | some _ =>
      let s3 : FS := { s2 with primary := none }
      let s4 : FS := { fs with primary := some (Doc.full d), tmp := none }
      [fs, s1, s2, s3, s4]
  else [fs]

/-- The overall outcome of `ApplicationManager._write_json`: any
`IOError`/`OSError` along the way (unwritable directory, or the
`os.remove(self._db_path)` on an absent primary file) is re-raised as
`ProgramDBException('Cannot open ProgDB for writing')`. -/
def write_json (fs : FS) (d : DB) : Except InitErr FS :=
  if fs.dirWritable then
    match fs.primary with
    | none => Except.error (InitErr.progDB "Cannot open ProgDB for writing")
    | some _ => Except.ok { fs with primary := some (Doc.full d), tmp := none }
  else Except.error (InitErr.progDB "Cannot open ProgDB for writing")

/-- Method `ApplicationManager._read_json`: parse the primary file; unparsable
content raises `ProgramDBException` (the file exists when this is called,
`__init__` checked `os.path.isfile`). -/
def read_json (fs : FS) : Except InitErr DB :=
  match fs.primary with
  | some (Doc.full d) => Except.ok d
  | some (Doc.halfWritten _) =>
    Except.error (InitErr.progDB "Cannot parse ProgDB JSON content")
  | some Doc.corrupt =>
    Except.error (InitErr.progDB "Cannot parse ProgDB JSON content")
  | none => Except.error (InitErr.progDB "Cannot open ProgDB for reading")

/-- A successfully constructed `ApplicationManager`: its loaded document
and the filesystem it left behind. -/
structure Manager where
  db : DB
  fs : FS
deriving DecidableEq

/-- Method `ApplicationManager.__init__` given the supported-profile names: check
the DB directory, load the document if the primary file exists
(`_read_json`) or create it (`_write_json` of the empty document), then
raise `ImplementationError` when installed programs lack profiles. -/
def initManager (fs : FS) (supported : List String) : Except InitErr Manager :=
  if fs.dirWritable then
    match fs.primary with
    | some _ =>
      match read_json fs with
      | Except.error e => Except.error e
      | Except.ok d =>
        let missing := (dictKeys d.installed).filter (fun n => n ∉ supported)
        if missing.isEmpty then Except.ok { db := d, fs := fs }
        else Except.error (InitErr.implementation missing)
    | none =>
      match write_json fs emptyDB with
      | Except.error e => Except.error e
      | Except.ok fs' =>
        let missing := (dictKeys emptyDB.installed).filter (fun n => n ∉ supported)
        if missing.isEmpty then Except.ok { db := emptyDB, fs := fs' }
        else Except.error (InitErr.implementation missing)
  else Except.error (InitErr.progDB "Invalid path (directory inexistent or not writable)")

end Appman

namespace Base_Profile

/-! ## `Base_Profile` lifecycle return shapes (`profiles/_base.py`)

`install` / `update` / `remove` return Python tuples; their shapes are the
subject of the spec sentence on transition results, so the tuples are
modelled as lists of Python values. -/

/-- A Python value appearing in a lifecycle result tuple. -/
inductive PyVal
  | vBool (b : Bool)
  | vStr (s : String)
  | vNone
deriving DecidableEq

/-- The profile fields consulted by `_manager`, with the outcome of the
external steps abstracted: `latestVersion` is what `_get_latest_version`
returns and `elapsed` what `format_time` produces (the elapsed durations of
the two return points are distinguished).  `currentVersion` is `''` when
the program is not installed (Python truthiness). -/
structure Profile where
  currentVersion : String
  x64Only : Bool
  canUpdate : Bool
  arch32 : Bool
  latestVersion : String
  elapsed : String
deriving DecidableEq

/-- The three `_manager` modes. -/
inductive Mode
  | install
  | update
  | remove
deriving DecidableEq

/-- Python truthiness of a version string. -/
def truthy (s : String) : Bool := s ≠ ""

/-- Method `Base_Profile._manager(mode)`: always a triple
`(version_changed, version, time_elapsed)` (on an execution whose external
steps succeed; a failing step raises instead of returning). -/
def manager (p : Profile) (mode : Mode) : List PyVal :=
  if p.x64Only && p.arch32 then
    [PyVal.vBool false, PyVal.vStr p.currentVersion, PyVal.vStr "00:00:00"]
  else if mode = Mode.update && !p.canUpdate then
    [PyVal.vBool false, PyVal.vStr p.currentVersion, PyVal.vStr "00:00:00"]
  else
    match mode with
    | Mode.remove => [PyVal.vBool true, PyVal.vNone, PyVal.vStr p.elapsed]
    | _ =>
      if mode = Mode.install || p.latestVersion ≠ p.currentVersion then
        [PyVal.vBool true, PyVal.vStr p.latestVersion, PyVal.vStr p.elapsed]
      else
        [PyVal.vBool false, PyVal.vStr p.currentVersion, PyVal.vStr p.elapsed]

/-- Method `Base_Profile.install`: `(False, None, None)` when already installed,
else `self._manager('install')[1:]`. -/
def install (p : Profile) : List PyVal :=
  if truthy p.currentVersion then [PyVal.vBool false, PyVal.vNone, PyVal.vNone]
  else (manager p Mode.install).drop 1

/-- Method `Base_Profile.remove`: `(False, None)` when not installed, else
`(True, self._manager('remove')[2])`. -/
def remove (p : Profile) : List PyVal :=
  if truthy p.currentVersion then
    [PyVal.vBool true, (manager p Mode.remove).getD 2 PyVal.vNone]
  else [PyVal.vBool false, PyVal.vNone]

/-- Method `Base_Profile.update`: `(False, None, None)` when not installed, else
`self._manager('update')`. -/
def update (p : Profile) : List PyVal :=
  if truthy p.currentVersion then manager p Mode.update
  else [PyVal.vBool false, PyVal.vNone, PyVal.vNone]

/-- The shape the spec ascribes to every transition result: a triple
`(changed : bool, resultingVersion : optional string, elapsedDuration)`. -/
def isChangedTriple : List PyVal → Bool
  | [PyVal.vBool _, v, t] =>
    (match v with
     | PyVal.vStr _ => true
     | PyVal.vNone => true
     | _ => false) &&
    (match t with
     | PyVal.vStr _ => true
     | PyVal.vNone => true
     | _ => false)
  | _ => false

end Base_Profile

namespace Profiles

/-! ## Startup catalogue validation (`profiles/__init__.py`)

The package scan builds `_PROFILES` keyed by `cls.program_name.lower()` and
`_META` keyed by `cls.meta_name.lower()`, then runs the module-level checks
in source order, raising `ImplementationError` on the first violation.
(The `is_set` type checks always pass here, where descriptors carry their
member collections directly.) -/

/-- Python `str.lower()` as used to build the registry keys (spelled through the
character list so that it evaluates by kernel reduction). -/
def lowerKey (s : String) : String := String.mk (s.data.map Char.toLower)

/-- One discovered `Base_Profile` subclass: its `program_name` and
`dependences`. -/
structure ProgDesc where
  name : String
  dependences : List String
deriving DecidableEq

/-- One discovered `Meta_Profile` subclass: its `meta_name` and `programs`. -/
structure MetaDesc where
  name : String
  programs : List String
deriving DecidableEq

/-- The discovered catalogue, in scan order. -/
structure Catalogue where
  profiles : List ProgDesc
  metas : List MetaDesc
deriving DecidableEq

/-- The keys of `_PROFILES` (lower-cased, deduplicated as dict keys are). -/
def progKeys (c : Catalogue) : List String :=
  (c.profiles.map (fun p => lowerKey p.name)).dedup

/-- The keys of `_META`. -/
def metaKeys (c : Catalogue) : List String :=
  (c.metas.map (fun m => lowerKey m.name)).dedup

/-- The per-meta checks, in source order. -/
def checkMeta (keys : List String) (m : MetaDesc) : Except String Unit :=
  if m.programs.isEmpty then
    Except.error "meta-profile programs set is empty"
  else if lowerKey m.name ∈ m.programs then
    Except.error "meta-profile programs set contains itself"
  else if !(m.programs.all (fun x => x ∈ keys)) then
    Except.error "meta-profile programs set contains unknown programs"
  else Except.ok ()

/-- The per-profile dependency checks, in source order. -/
def checkProfile (keys : List String) (p : ProgDesc) : Except String Unit :=
  if lowerKey p.name ∈ p.dependences then
    Except.error "profile dependences set contains itself"
  else if !(p.dependences.all (fun x => x ∈ keys)) then
    Except.error "profile dependences set contains unknown programs"
  else Except.ok ()

/-- Run a check over a list, stopping at the first violation (the Python
loops raise on the first offending descriptor). -/
def firstErr (f : α → Except String Unit) : List α → Except String Unit
  | [] => Except.ok ()
  | x :: xs =>
    match f x with
    | Except.error e => Except.error e
    | Except.ok _ => firstErr f xs

/-- The module-level validation of `profiles/__init__.py`, in source
order: base-name leakage, key collisions, program/meta disjointness, the
per-meta checks, the per-profile checks. -/
def validateCatalogue (c : Catalogue) : Except String Unit :=
  if "generic_profile" ∈ progKeys c then
    Except.error "profiles not implementing program_name"
  else if (progKeys c).length ≠ c.profiles.length then
    Except.error "collision between names of profiles"
  else if "generic_meta_profile" ∈ metaKeys c then
    Except.error "meta-profiles not implementing meta_name"
  else if (metaKeys c).length ≠ c.metas.length then
    Except.error "collision between names of meta-profiles"
  else if !((progKeys c).all (fun k => k ∉ metaKeys c)) then
    Except.error "collision between names of profiles and meta-profiles"
  else
    match firstErr (checkMeta (progKeys c)) c.metas with
    | Except.error e => Except.error e
    | Except.ok _ => firstErr (checkProfile (progKeys c)) c.profiles

end Profiles

namespace Appman

/-! ## Concrete fixtures -/

/-- A sample installed record. -/
def recA : InstalledRecord := { executables := ["ea"], path := "pa", version := "1.0" }

/-- A second sample installed record. -/
def recB : InstalledRecord := { executables := ["eb"], path := "pb", version := "2.0" }

/-- A ledger document with one installed program and no edges. -/
def dbA : DB := { installed := [("a", recA)], dependences := [] }

/-- A ledger document with two installed programs and one edge. -/
def dbAB : DB :=
  { installed := [("a", recA), ("b", recB)], dependences := [("a", ["b"])] }

/-- A filesystem whose primary path holds the document `dbA`. -/
def fsA : FS := { primary := some (Doc.full dbA), tmp := none, dirWritable := true }

/-- A fresh filesystem: no DB file yet, writable directory. -/
def fsFresh : FS := { primary := none, tmp := none, dirWritable := true }

/-- A filesystem whose primary path holds unparsable content. -/
def fsCorrupt : FS := { primary := some Doc.corrupt, tmp := none, dirWritable := true }

/-- Registry with programs `a` (no dependences) and `b` (depends on `a`),
whose install actions succeed. -/
def envAB : Env :=
  { registry := ["a", "b"],
    deps := fun p => if p = "b" then ["a"] else [],
    installAct := fun p =>
      if p = "a" then ActOutcome.success recA else ActOutcome.success recB,
    updateAct := fun _ => UpdOutcome.unchanged,
    removeAct := fun _ => RemOutcome.success }

/-- Registry with the two-program dependency cycle `a → b → a` (which the
startup validation of `profiles/__init__.py` does not reject: it only
checks self-dependences and membership). -/
def envCyc : Env :=
  { registry := ["a", "b"],
    deps := fun p => if p = "a" then ["b"] else if p = "b" then ["a"] else [],
    installAct := fun _ => ActOutcome.success recA,
    updateAct := fun _ => UpdOutcome.unchanged,
    removeAct := fun _ => RemOutcome.success }

/-- Registry for the aborted-install scenario: `t` depends on `d1` (whose
install succeeds) and then on `dbad` (whose install action raises). -/
def envT : Env :=
  { registry := ["t", "d1", "dbad"],
    deps := fun p => if p = "t" then ["d1", "dbad"] else [],
    installAct := fun p =>
      if p = "d1" then ActOutcome.success recA
      else if p = "t" then ActOutcome.success recB
      else ActOutcome.raises,
    updateAct := fun _ => UpdOutcome.unchanged,
    removeAct := fun _ => RemOutcome.success }

/-- The state reached after `install envT _ "t"` has installed the first
dependency `d1` (checking message printed, `d1` installed and flushed). -/
def stD1 : St :=
  { db := { installed := [("d1", recA)], dependences := [] },
    saved := [{ installed := [("d1", recA)], dependences := [] }],
    trace := ["d1"],
    out := [Msg.checkingDeps "t"] }

/-- The state in which the second dependency `dbad` raised: its action ran
(trace) but nothing was recorded or flushed. -/
def stDbad : St :=
  { db := { installed := [("d1", recA)], dependences := [] },
    saved := [{ installed := [("d1", recA)], dependences := [] }],
    trace := ["d1", "dbad"],
    out := [Msg.checkingDeps "t"] }

/-- Registry for the remove scenario: programs `p` and `q`, all remove
actions succeed. -/
def envPQ : Env :=
  { registry := ["p", "q"],
    deps := fun _ => [],
    installAct := fun _ => ActOutcome.success recA,
    updateAct := fun _ => UpdOutcome.unchanged,
    removeAct := fun _ => RemOutcome.success }

/-- A state in which `p` and `q` are installed and `q` is recorded as the
sole dependent of `p`. -/
def stPQ : St :=
  { db := { installed := [("p", recA), ("q", recB)],
            dependences := [("p", ["q"])] },
    saved := [], trace := [], out := [] }

/-- A ledger document whose installed program has no registered profile. -/
def dbGhost : DB := { installed := [("ghost", recA)], dependences := [] }

/-- A filesystem persisting `dbGhost`. -/
def fsGhost : FS :=
  { primary := some (Doc.full dbGhost), tmp := none, dirWritable := true }

end Appman

namespace Base_Profile

/-- An installed profile (current version `1.0`) with a newer version
available. -/
def pInst : Profile :=
  { currentVersion := "1.0", x64Only := false, canUpdate := true,
    arch32 := false, latestVersion := "2.0", elapsed := "00:00:05" }

/-- A not-yet-installed profile. -/
def pFresh : Profile :=
  { currentVersion := "", x64Only := false, canUpdate := true,
    arch32 := false, latestVersion := "2.0", elapsed := "00:00:05" }

end Base_Profile

namespace Profiles

/-- A small valid catalogue: programs `a` and `b` (where `b` depends on
`a`) and one meta-program `m` expanding to both. -/
def catOk : Catalogue :=
  { profiles := [{ name := "a", dependences := [] },
                 { name := "b", dependences := ["a"] }],
    metas := [{ name := "m", programs := ["a", "b"] }] }

end Profiles

/-! ## Helper lemmas -/

namespace Appman

/-- Fuel exhaustion in the cyclic registry `envCyc`: as long as nothing is
installed, installing `a` or `b` consumes every fuel bound (the source
recursion `install a → install b → install a → …` never returns). -/
theorem installCyc_exhausts (n : Nat) :
    ∀ (st : St), st.db.installed = [] →
      install envCyc n "a" st = none ∧ install envCyc n "b" st = none := by
  induction n with
  | zero => intro st _; exact ⟨rfl, rfl⟩
  | succ n ih =>
    intro st h
    have hmsg : ∀ m, (addMsg m st).db.installed = [] := fun _ => h
    constructor
    · show install envCyc (n + 1) "a" st = none
      unfold install
      rw [show dictGet "a" st.db.installed = none from by rw [h]; rfl]
      have hb := (ih (addMsg (Msg.checkingDeps "a") st) (hmsg _)).2
      simp only [envCyc, runDeps, List.isEmpty_cons, Bool.false_eq_true, if_false]
      simp only [envCyc] at hb
      simp [hb]
    · show install envCyc (n + 1) "b" st = none
      unfold install
      rw [show dictGet "b" st.db.installed = none from by rw [h]; rfl]
      have ha := (ih (addMsg (Msg.checkingDeps "b") st) (hmsg _)).1
      simp only [envCyc, runDeps, List.isEmpty_cons, Bool.false_eq_true, if_false]
      simp only [envCyc] at ha
      simp [ha]

/-- Splitting the dependency loop at an append: the second segment runs
only if the first one finished without a raise. -/
theorem runDeps_append (inst : String → St → Option (PRes × St)) (prog : String)
    (l1 l2 : List String) (st : St) :
    runDeps inst prog (l1 ++ l2) st =
      match runDeps inst prog l1 st with
      | none => none
      | some (true, st') => some (true, st')
      | some (false, st') => runDeps inst prog l2 st' := by
  induction l1 generalizing st with
  | nil => rfl
  | cons d ds ih =>
    cases h : inst d st with
    | none => simp [runDeps, h]
    | some p =>
      rcases p with ⟨pr, st'⟩
      cases pr with
      | raised => simp [runDeps, h]
      | ret b =>
        simp only [List.cons_append, runDeps, h]
        exact ih st'

/-- Overwriting the value of a key that is present does not change the key
list. -/
theorem dictKeys_dictSet_of_get (k : String) (v v' : α) (l : List (String × α))
    (hv : dictGet k l = some v) : dictKeys (dictSet k v' l) = dictKeys l := by
  induction l with
  | nil => simp [dictGet] at hv
  | cons kv t ih =>
    rcases kv with ⟨k', v0⟩
    by_cases hk : k' = k
    · simp [dictSet, hk, dictKeys]
    · simp only [dictGet, if_neg hk] at hv
      have h2 := ih hv
      simp only [dictKeys] at h2
      simp [dictSet, hk, dictKeys, h2]

/-- A single `update` call never touches the dependency-edge map and never
changes the key list of the installed map. -/
theorem update_frame_one (env : Env) (prog : String) (st : St) :
    (update env prog st).2.db.dependences = st.db.dependences ∧
    dictKeys (update env prog st).2.db.installed = dictKeys st.db.installed := by
  unfold update
  cases h : dictGet prog st.db.installed with
  | none => exact ⟨rfl, rfl⟩
  | some r =>
    by_cases hreg : prog ∈ env.registry
    · rw [if_pos hreg]
      cases env.updateAct prog with
      | raises => exact ⟨rfl, rfl⟩
      | unchanged => exact ⟨rfl, rfl⟩
      | changed r' =>
        refine ⟨rfl, ?_⟩
        simpa [flushDB] using dictKeys_dictSet_of_get prog r r' _ h
    · rw [if_neg hreg]; exact ⟨rfl, rfl⟩

/-- A key that is not in the key list looks up to `none`. -/
theorem dictGet_eq_none_of_not_mem (k : String) (l : List (String × α))
    (h : k ∉ dictKeys l) : dictGet k l = none := by
  induction l with
  | nil => rfl
  | cons kv t ih =>
    rcases kv with ⟨k', v⟩
    simp only [dictKeys, List.map_cons, List.mem_cons] at h
    push_neg at h
    have hne : ¬ (k' = k) := fun he => h.1 he.symm
    simp only [dictGet, if_neg hne]
    exact ih (by simpa [dictKeys] using h.2)

/-- Popping one key leaves lookups of other keys unchanged. -/
theorem dictGet_dictPop_ne (k q : String) (l : List (String × α)) (h : q ≠ k) :
    dictGet q (dictPop k l) = dictGet q l := by
  induction l with
  | nil => rfl
  | cons kv t ih =>
    rcases kv with ⟨k', v⟩
    simp only [dictPop, dictGet]
    by_cases hk : k' = k
    · rw [if_pos hk]
      have h2 : ¬ (k' = q) := fun he => h (he.symm.trans hk)
      rw [if_neg h2]
    · rw [if_neg hk]
      simp only [dictGet]
      by_cases hq : k' = q
      · rw [if_pos hq, if_pos hq]
      · rw [if_neg hq, if_neg hq]
        exact ih

/-- With unique keys, the popped key is gone. -/
theorem dictGet_dictPop_self (k : String) (l : List (String × α))
    (h : (dictKeys l).Nodup) : dictGet k (dictPop k l) = none := by
  induction l with
  | nil => rfl
  | cons kv t ih =>
    rcases kv with ⟨k', v⟩
    simp only [dictKeys, List.map_cons, List.nodup_cons] at h
    by_cases hk : k' = k
    · subst hk
      simp only [dictPop, if_pos rfl]
      exact dictGet_eq_none_of_not_mem k' t (by simpa [dictKeys] using h.1)
    · simp only [dictPop, if_neg hk, dictGet, if_neg hk]
      exact ih h.2

/-- The keys of a popped dict form a sublist of the original keys. -/
theorem dictKeys_dictPop_sublist (k : String) (l : List (String × α)) :
    (dictKeys (dictPop k l)).Sublist (dictKeys l) := by
  induction l with
  | nil => exact List.Sublist.refl _
  | cons kv t ih =>
    rcases kv with ⟨k', v⟩
    by_cases hk : k' = k
    · simp only [dictPop, if_pos hk, dictKeys, List.map_cons]
      exact List.sublist_cons_self _ _
    · simp only [dictPop, if_neg hk, dictKeys, List.map_cons]
      exact List.Sublist.cons₂ _ ih

/-- Popping preserves key uniqueness. -/
theorem nodup_dictKeys_dictPop (k : String) (l : List (String × α))
    (h : (dictKeys l).Nodup) : (dictKeys (dictPop k l)).Nodup :=
  List.Nodup.sublist (dictKeys_dictPop_sublist k l) h

/-- Mapping over the values commutes with lookup. -/
theorem dictGet_mapVal (q : String) (f : α → β) (l : List (String × α)) :
    dictGet q (l.map (fun kv => (kv.1, f kv.2))) = (dictGet q l).map f := by
  induction l with
  | nil => rfl
  | cons kv t ih =>
    rcases kv with ⟨k', v⟩
    by_cases hq : k' = q
    · simp [dictGet, hq]
    · simp [dictGet, hq, ih]

/-- Mapping over the values leaves the keys unchanged. -/
theorem dictKeys_mapVal (f : α → β) (l : List (String × α)) :
    dictKeys (l.map (fun kv => (kv.1, f kv.2))) = dictKeys l := by
  induction l with
  | nil => rfl
  | cons kv t ih =>
    simp only [dictKeys, List.map_cons] at ih ⊢
    rw [ih]

/-- Occurrence count of the value just prepended. -/
theorem countOcc_cons_self (x : String) (t : List String) :
    countOcc x (x :: t) = countOcc x t + 1 := by
  simp [countOcc, List.filter_cons]

/-- Occurrence count past a different head. -/
theorem countOcc_cons_ne (x z : String) (t : List String) (h : ¬ z = x) :
    countOcc x (z :: t) = countOcc x t := by
  simp [countOcc, List.filter_cons, h]

/-- A member occurs at least once. -/
theorem mem_countOcc_pos (x : String) (l : List String) (h : x ∈ l) :
    0 < countOcc x l := by
  unfold countOcc
  have hm : x ∈ l.filter (fun y => y = x) := List.mem_filter.mpr ⟨h, by simp⟩
  exact List.length_pos.mpr (List.ne_nil_of_mem hm)

/-- Removing one element never increases another element's count. -/
theorem countOcc_listRemove_le (x y : String) (l : List String) :
    countOcc x (listRemove y l) ≤ countOcc x l := by
  induction l with
  | nil => exact Nat.le_refl 0
  | cons z t ih =>
    by_cases hz : z = y
    · simp only [listRemove, if_pos hz]
      by_cases hx : z = x
      · subst hx; rw [countOcc_cons_self]; omega
      · rw [countOcc_cons_ne x z t hx]
    · simp only [listRemove, if_neg hz]
      by_cases hx : z = x
      · subst hx
        rw [countOcc_cons_self, countOcc_cons_self]
        omega
      · rw [countOcc_cons_ne x z _ hx, countOcc_cons_ne x z t hx]
        exact ih

/-- If `x` occurs at most once, `list.remove(x)` eliminates it completely
(the source relies on this through the deduplication of
`_add_dependences`). -/
theorem not_mem_listRemove (x : String) (l : List String)
    (h : countOcc x l ≤ 1) : x ∉ listRemove x l := by
  induction l with
  | nil => simp [listRemove]
  | cons z t ih =>
    by_cases hz : z = x
    · subst hz
      rw [countOcc_cons_self] at h
      have h0 : countOcc z t = 0 := by omega
      simp only [listRemove, if_pos rfl]
      intro hx
      exact absurd h0 (Nat.ne_of_gt (mem_countOcc_pos z t hx))
    · rw [countOcc_cons_ne x z t hz] at h
      simp only [listRemove, if_neg hz]
      intro hx
      rcases List.mem_cons.mp hx with h1 | h1
      · exact hz h1.symm
      · exact ih h h1

/-- The success path of `remove`: with the target installed, its edge set
empty or absent, the profile registered and the external remove action
succeeding, the installed record and the edge entry are popped, the name
is erased from every other edge list, and the document is flushed. -/
theorem remove_success_eq (env : Env) (prog : String) (st : St)
    (r : InstalledRecord)
    (hI : dictGet prog st.db.installed = some r)
    (hB : dictGet prog st.db.dependences = none ∨
          dictGet prog st.db.dependences = some [])
    (hReg : prog ∈ env.registry)
    (hAct : env.removeAct prog = RemOutcome.success) :
    remove env prog st =
      (PRes.ret true, flushDB { st with db :=
        { installed := dictPop prog st.db.installed,
          dependences := (dictPop prog st.db.dependences).map
            (fun kv => (kv.1, listRemove prog kv.2)) } }) := by
  unfold remove
  rw [hI]
  rcases hB with h | h <;> rw [h] <;> rw [if_pos hReg, hAct]

/-- The frame property of `update`, folded over any program list. -/
theorem updateAll_frame_list (env : Env) :
    ∀ (ps : List String) (st : St),
      ((ps.foldl (fun s p => (update env p s).2) st).db.dependences =
        st.db.dependences) ∧
      dictKeys ((ps.foldl (fun s p => (update env p s).2) st).db.installed) =
        dictKeys st.db.installed := by
  intro ps
  induction ps with
  | nil => intro st; exact ⟨rfl, rfl⟩
  | cons p t ih =>
    intro st
    have h1 := update_frame_one env p st
    have h2 := ih ((update env p st).2)
    simp only [List.foldl_cons]
    exact ⟨h2.1.trans h1.1, h2.2.trans h1.2⟩

end Appman

namespace Profiles

/-- A loop that stopped at no violation validated every element. -/
theorem firstErr_ok (f : α → Except String Unit) :
    ∀ (l : List α), firstErr f l = Except.ok () →
      ∀ x ∈ l, f x = Except.ok () := by
  intro l
  induction l with
  | nil => intro _ x hx; cases hx
  | cons y t ih =>
    intro h x hx
    cases hfy : f y with
    | error e =>
      simp only [firstErr] at h
      rw [hfy] at h
      cases h
    | ok u =>
      simp only [firstErr] at h
      rw [hfy] at h
      rcases List.mem_cons.mp hx with h1 | h1
      · subst h1
        cases u
        exact hfy
      · exact ih h x h1

/-- What a passed per-meta check guarantees. -/
theorem checkMeta_ok (keys : List String) (m : MetaDesc)
    (h : checkMeta keys m = Except.ok ()) :
    m.programs ≠ [] ∧ lowerKey m.name ∉ m.programs ∧
      ∀ x ∈ m.programs, x ∈ keys := by
  unfold checkMeta at h
  split_ifs at h with h1 h2 h3
  all_goals try cases h
  refine ⟨?_, h2, ?_⟩
  · intro he
    exact h1 (by rw [he]; rfl)
  · intro x hx
    have h3' : m.programs.all (fun x => x ∈ keys) = true := by
      cases hb : m.programs.all (fun x => x ∈ keys) with
      | true => rfl
      | false => exact absurd (by rw [hb]; rfl) h3
    simpa using List.all_eq_true.mp h3' x hx

/-- What a passed per-profile check guarantees. -/
theorem checkProfile_ok (keys : List String) (p : ProgDesc)
    (h : checkProfile keys p = Except.ok ()) :
    lowerKey p.name ∉ p.dependences ∧ ∀ d ∈ p.dependences, d ∈ keys := by
  unfold checkProfile at h
  split_ifs at h with h1 h2
  all_goals try cases h
  refine ⟨h1, ?_⟩
  intro d hd
  have h2' : p.dependences.all (fun x => x ∈ keys) = true := by
    cases hb : p.dependences.all (fun x => x ∈ keys) with
    | true => rfl
    | false => exact absurd (by rw [hb]; rfl) h2
  simpa using List.all_eq_true.mp h2' d hd

end Profiles

/-! ## Claims -/

/-- C1 (counterexample): `_write_json` is not an atomic replacement.
Starting from a filesystem whose primary path holds the full document
`dbA`, saving `dbAB` passes through an intermediate state (after the
`os.remove`, before the `os.rename`) in which the primary path is absent —
so a kill there leaves no file at the primary path, not the pre-crash
content. -/
theorem write_json_removes_primary_before_rename :
    Appman.fsA.primary = some (Appman.Doc.full Appman.dbA) ∧
    (Appman.write_json_steps Appman.fsA Appman.dbAB)[3]? =
      some { primary := none, tmp := some (Appman.Doc.full Appman.dbAB),
             dirWritable := true } ∧
    ((Appman.write_json_steps Appman.fsA Appman.dbAB).all
        fun s => s.primary.isSome) = false := by decide

/-- C1 (amended): at every intermediate point of the save sequence the
primary path holds the old full document, is absent, or holds the new full
document — it is never partially written — and a completed save leaves the
new full document at the primary path with the temporary file gone. -/
theorem write_json_primary_always_whole :
    ∀ (fs : Appman.FS) (d : Appman.DB),
      ((Appman.write_json_steps fs d).all fun s =>
          decide (s.primary = fs.primary) || decide (s.primary = none) ||
            decide (s.primary = some (Appman.Doc.full d))) = true ∧
      (∀ fs', Appman.write_json fs d = Except.ok fs' →
        fs'.primary = some (Appman.Doc.full d) ∧ fs'.tmp = none) := by
  intro fs d
  constructor
  · rcases fs with ⟨prim, tmp, dw⟩
    cases dw
    · simp [Appman.write_json_steps]
    · cases prim <;> simp [Appman.write_json_steps]
  · intro fs' h
    rcases fs with ⟨prim, tmp, dw⟩
    cases dw
    · simp [Appman.write_json] at h
    · cases prim
      · simp [Appman.write_json] at h
      · simp [Appman.write_json] at h
        rw [← h]
        exact ⟨rfl, rfl⟩

/-- C1 (witness): the amended statement evaluated on the concrete
filesystem `fsA` and document `dbAB`. -/
theorem write_json_primary_always_whole_witness :
    (((Appman.write_json_steps Appman.fsA Appman.dbAB).all fun s =>
        decide (s.primary = Appman.fsA.primary) || decide (s.primary = none) ||
          decide (s.primary = some (Appman.Doc.full Appman.dbAB))) = true) ∧
    (({ primary := some (Appman.Doc.full Appman.dbAB), tmp := none,
        dirWritable := true } : Appman.FS).primary =
          some (Appman.Doc.full Appman.dbAB) ∧
     ({ primary := some (Appman.Doc.full Appman.dbAB), tmp := none,
        dirWritable := true } : Appman.FS).tmp = none) :=
  ⟨(write_json_primary_always_whole Appman.fsA Appman.dbAB).1,
   (write_json_primary_always_whole Appman.fsA Appman.dbAB).2 _ rfl⟩

/-- C2 (the code at the failing input): on a fresh filesystem with no
persisted document, constructing the `ApplicationManager` raises
`ProgramDBException` (the `os.remove` inside `_write_json` hits the absent
primary path) instead of initializing an empty ledger; an
existing-but-corrupt document raises the parse `ProgramDBException`, as
the claim says. -/
theorem initManager_fresh_raises :
    Appman.initManager Appman.fsFresh ["a"] =
      Except.error (Appman.InitErr.progDB "Cannot open ProgDB for writing") ∧
    Appman.initManager Appman.fsCorrupt ["a"] =
      Except.error (Appman.InitErr.progDB "Cannot parse ProgDB JSON content") :=
  ⟨rfl, rfl⟩

/-- C3: on the registry with the two-program cycle `a → b → a` (which the
startup validation accepts) and nothing installed, `install a` exhausts
every recursion bound: no amount of fuel makes it return, so the code
recurses unboundedly instead of failing fast with a dependency error. -/
theorem install_cycle_never_terminates :
    ∀ (n : Nat), Appman.install Appman.envCyc n "a" Appman.st0 = none :=
  fun n => (Appman.installCyc_exhausts n Appman.st0 rfl).1

/-- C6: from an empty ledger with registry `envAB` (program `a` with no
dependences, `b` depending on `a`), `install b` installs `a` then `b` in
that order, ends with both in the installed map and exactly
`dependences\x7b"a"\x7d = ["b"]`, and re-adding the same dependent leaves
the edge list unchanged (deduplication). -/
theorem install_b_resolves_a_first :
    ((Appman.install Appman.envAB 2 "b" Appman.st0).map fun x => x.1) =
      some (Appman.PRes.ret true) ∧
    ((Appman.install Appman.envAB 2 "b" Appman.st0).map fun x => x.2.trace) =
      some ["a", "b"] ∧
    ((Appman.install Appman.envAB 2 "b" Appman.st0).map
        fun x => Appman.dictKeys x.2.db.installed) = some ["a", "b"] ∧
    ((Appman.install Appman.envAB 2 "b" Appman.st0).map
        fun x => x.2.db.dependences) = some [("a", ["b"])] ∧
    Appman.add_dependences "b" ["a"] [("a", ["b"])] = [("a", ["b"])] := by decide

/-- C7 (counterexample): lifecycle transitions do not all return the
`(changed, resultingVersion, elapsedDuration)` triple.  `remove` on an
installed profile returns the pair `(True, elapsed)`, and `install` on a
fresh profile returns `self._manager('install')[1:]`, the pair
`(version, elapsed)` with the changed flag dropped. -/
theorem remove_install_return_pairs :
    Base_Profile.remove Base_Profile.pInst =
      [Base_Profile.PyVal.vBool true, Base_Profile.PyVal.vStr "00:00:05"] ∧
    Base_Profile.isChangedTriple (Base_Profile.remove Base_Profile.pInst) = false ∧
    Base_Profile.install Base_Profile.pFresh =
      [Base_Profile.PyVal.vStr "2.0", Base_Profile.PyVal.vStr "00:00:05"] ∧
    Base_Profile.isChangedTriple (Base_Profile.install Base_Profile.pFresh) = false := by
  decide

/-- C7 (amended): `update` always returns the
`(changed, resultingVersion, elapsed)` triple; `remove` returns a pair
whose first component is the changed flag; `install` returns the triple
only on the already-installed guard path and otherwise a pair (the changed
flag of `_manager`'s triple is dropped by the `[1:]` slice). -/
theorem transition_return_shapes :
    ∀ (p : Base_Profile.Profile),
      Base_Profile.isChangedTriple (Base_Profile.update p) = true ∧
      (Base_Profile.remove p).length = 2 ∧
      (Base_Profile.remove p).take 1 =
        [Base_Profile.PyVal.vBool (Base_Profile.truthy p.currentVersion)] ∧
      (Base_Profile.install p).length =
        (if Base_Profile.truthy p.currentVersion then 3 else 2) := by
  intro p
  by_cases h : Base_Profile.truthy p.currentVersion = true
  · refine ⟨?_, ?_, ?_, ?_⟩ <;>
      simp only [Base_Profile.update, Base_Profile.remove, Base_Profile.install,
        Base_Profile.manager, h, if_true, if_pos] <;>
      (try split_ifs) <;> rfl
  · rw [Bool.not_eq_true] at h
    refine ⟨?_, ?_, ?_, ?_⟩ <;>
      simp only [Base_Profile.update, Base_Profile.remove, Base_Profile.install,
        Base_Profile.manager, h, Bool.false_eq_true, if_false] <;>
      (try split_ifs) <;> rfl

/-- C4: if, while installing `T`, the recursive install of the dependency
`d` raises (after the earlier dependences `ds1` were processed without a
raise, reaching `st1`), then `install T` returns `False` with exactly the
state the failing dependency call left (plus the attribution message):
`T`'s own install action is not run, nothing is flushed, and the ledger
entries — including the dependencies already installed by the `ds1`
segment — are exactly those of the failing dependency's state. -/
theorem install_dep_raise_aborts :
    ∀ (env : Appman.Env) (T d : String) (st st1 st2 : Appman.St)
      (ds1 ds2 : List String) (fuel : Nat),
      Appman.dictGet T st.db.installed = none →
      T ∈ env.registry →
      env.deps T = ds1 ++ d :: ds2 →
      Appman.runDeps (Appman.install env fuel) T ds1
          (Appman.addMsg (Appman.Msg.checkingDeps T) st) = some (false, st1) →
      Appman.install env fuel d st1 = some (Appman.PRes.raised, st2) →
      Appman.install env (fuel + 1) T st =
        some (Appman.PRes.ret false,
          Appman.addMsg (Appman.Msg.depFailed T d) st2) ∧
      (Appman.addMsg (Appman.Msg.depFailed T d) st2).db = st2.db ∧
      (Appman.addMsg (Appman.Msg.depFailed T d) st2).saved = st2.saved ∧
      (Appman.addMsg (Appman.Msg.depFailed T d) st2).trace = st2.trace := by
  intro env T d st st1 st2 ds1 ds2 fuel hI hReg hDeps hPre hRaise
  refine ⟨?_, rfl, rfl, rfl⟩
  have hne : (ds1 ++ d :: ds2).isEmpty = false := by cases ds1 <;> rfl
  show Appman.install env (fuel + 1) T st = _
  unfold Appman.install
  rw [hI]
  simp only [hDeps, if_pos hReg, hne, Bool.false_eq_true, if_false]
  rw [Appman.runDeps_append]
  rw [hPre]
  simp only [Appman.runDeps]
  rw [hRaise]

/-- C4 (witness): the abort behaviour evaluated on the registry `envT`
(`t` depends on `d1`, then on `dbad` whose install raises) from the empty
ledger. -/
theorem install_dep_raise_aborts_witness :
    Appman.install Appman.envT 2 "t" Appman.st0 =
      some (Appman.PRes.ret false,
        Appman.addMsg (Appman.Msg.depFailed "t" "dbad") Appman.stDbad) ∧
    (Appman.addMsg (Appman.Msg.depFailed "t" "dbad") Appman.stDbad).db =
      Appman.stDbad.db ∧
    (Appman.addMsg (Appman.Msg.depFailed "t" "dbad") Appman.stDbad).saved =
      Appman.stDbad.saved ∧
    (Appman.addMsg (Appman.Msg.depFailed "t" "dbad") Appman.stDbad).trace =
      Appman.stDbad.trace :=
  install_dep_raise_aborts Appman.envT "t" "dbad" Appman.st0 Appman.stD1
    Appman.stDbad ["d1"] [] 1 rfl (by decide) rfl (by decide) (by decide)

/-- C8: `update` never touches the dependency-edge map and never adds a
key to the installed map; updating a program that is not installed returns
`False` having only printed the message; and `update all` (a fold of
`update` over the currently installed keys) preserves both maps' key
structure, so a missing dependency is never installed by an update. -/
theorem update_never_installs :
    ∀ (env : Appman.Env) (prog : String) (st : Appman.St),
      (Appman.update env prog st).2.db.dependences = st.db.dependences ∧
      Appman.dictKeys (Appman.update env prog st).2.db.installed =
        Appman.dictKeys st.db.installed ∧
      (Appman.dictGet prog st.db.installed = none →
        Appman.update env prog st =
          (Appman.PRes.ret false,
            Appman.addMsg (Appman.Msg.cannotUpdateNotInstalled prog) st)) ∧
      (Appman.updateAll env st).db.dependences = st.db.dependences ∧
      Appman.dictKeys (Appman.updateAll env st).db.installed =
        Appman.dictKeys st.db.installed := by
  intro env prog st
  have hAll := Appman.updateAll_frame_list env (Appman.dictKeys st.db.installed) st
  refine ⟨(Appman.update_frame_one env prog st).1,
    (Appman.update_frame_one env prog st).2, ?_, hAll.1, hAll.2⟩
  intro h
  unfold Appman.update
  rw [h]

/-- C8 (witness): the frame property evaluated at the registry `envAB`,
the unknown program `x` and the empty ledger. -/
theorem update_never_installs_witness :
    (Appman.update Appman.envAB "x" Appman.st0).2.db.dependences =
      Appman.st0.db.dependences ∧
    Appman.dictKeys (Appman.update Appman.envAB "x" Appman.st0).2.db.installed =
      Appman.dictKeys Appman.st0.db.installed ∧
    Appman.update Appman.envAB "x" Appman.st0 =
      (Appman.PRes.ret false,
        Appman.addMsg (Appman.Msg.cannotUpdateNotInstalled "x") Appman.st0) ∧
    (Appman.updateAll Appman.envAB Appman.st0).db.dependences =
      Appman.st0.db.dependences ∧
    Appman.dictKeys (Appman.updateAll Appman.envAB Appman.st0).db.installed =
      Appman.dictKeys Appman.st0.db.installed :=
  have h := update_never_installs Appman.envAB "x" Appman.st0
  ⟨h.1, h.2.1, h.2.2.1 rfl, h.2.2.2.1, h.2.2.2.2⟩

/-- C10: constructing the manager raises `ImplementationError` exactly
when the document was loaded (writable directory, parsable primary file)
and some installed name has no registered profile; consequently every
successfully constructed manager has its installed names contained in the
supported set. -/
theorem initManager_implementation_iff :
    ∀ (fs : Appman.FS) (sup : List String),
      ((∃ m, Appman.initManager fs sup =
          Except.error (Appman.InitErr.implementation m)) ↔
        (fs.dirWritable = true ∧ ∃ d, fs.primary = some (Appman.Doc.full d) ∧
          (Appman.dictKeys d.installed).filter (fun n => n ∉ sup) ≠ [])) ∧
      (∀ mgr, Appman.initManager fs sup = Except.ok mgr →
        ∀ n ∈ Appman.dictKeys mgr.db.installed, n ∈ sup) := by
  intro fs sup
  rcases fs with ⟨prim, tmp, dw⟩
  cases dw
  · simp [Appman.initManager]
  · cases prim with
    | none => simp [Appman.initManager, Appman.write_json]
    | some doc =>
      cases doc with
      | halfWritten d => simp [Appman.initManager, Appman.read_json]
      | corrupt => simp [Appman.initManager, Appman.read_json]
      | full d =>
        have hinit : Appman.initManager
            { primary := some (Appman.Doc.full d), tmp := tmp, dirWritable := true } sup =
            (if ((Appman.dictKeys d.installed).filter (fun n => n ∉ sup)).isEmpty then
              Except.ok ⟨d, ⟨some (Appman.Doc.full d), tmp, true⟩⟩
            else Except.error (Appman.InitErr.implementation
              ((Appman.dictKeys d.installed).filter (fun n => n ∉ sup)))) := rfl
        by_cases hf : (Appman.dictKeys d.installed).filter (fun n => n ∉ sup) = []
        · have he : ((Appman.dictKeys d.installed).filter
              (fun n => n ∉ sup)).isEmpty = true := by rw [hf]; rfl
          rw [hinit, if_pos he]
          constructor
          · constructor
            · rintro ⟨m, hm⟩
              cases hm
            · rintro ⟨_, d', hd', hne⟩
              have : d' = d := by
                cases hd'
                rfl
              rw [this] at hne
              exact absurd hf hne
          · intro mgr hmgr n hn
            have hmd : mgr.db = d := by
              cases hmgr
              rfl
            rw [hmd] at hn
            have := List.filter_eq_nil_iff.mp hf n hn
            simpa using this
        · have he : ((Appman.dictKeys d.installed).filter
              (fun n => n ∉ sup)).isEmpty = false := by
            cases hl : (Appman.dictKeys d.installed).filter (fun n => n ∉ sup) with
            | nil => exact absurd hl hf
            | cons x xs => rfl
          rw [hinit, if_neg (by rw [he]; exact Bool.false_ne_true)]
          constructor
          · constructor
            · intro _
              exact ⟨rfl, d, rfl, hf⟩
            · intro _
              exact ⟨_, rfl⟩
          · intro mgr hmgr
            cases hmgr

/-- C10 (witness): on `fsGhost` (persisted program `ghost`, supported set
`["a"]`) construction fails with `ImplementationError`; on `fsA`
(persisted program `a`) construction succeeds and the installed names are
supported. -/
theorem initManager_implementation_iff_witness :
    (∃ m, Appman.initManager Appman.fsGhost ["a"] =
        Except.error (Appman.InitErr.implementation m)) ∧
    (∀ n ∈ Appman.dictKeys
        (({ db := Appman.dbA, fs := Appman.fsA } : Appman.Manager)).db.installed,
      n ∈ ["a"]) :=
  ⟨(initManager_implementation_iff Appman.fsGhost ["a"]).1.mpr
      ⟨rfl, Appman.dbGhost, rfl, by decide⟩,
   (initManager_implementation_iff Appman.fsA ["a"]).2
      { db := Appman.dbA, fs := Appman.fsA } rfl⟩

/-- C5: (a) removing an installed program whose edge list is non-empty
returns `False`, prints the message listing the blocking dependents, and
leaves the ledger (document and flushes) untouched; (b) once the last
dependent `B` of `P` is removed — which prunes `B` from `P`'s edge list —
a subsequent `remove P` succeeds and deletes `P`'s installed record, `P`'s
own edge entry, and `P`'s name from every other edge list. -/
theorem remove_blocked_then_unblocked :
    (∀ (env : Appman.Env) (prog : String) (st : Appman.St)
        (r : Appman.InstalledRecord) (b : String) (bs : List String),
      Appman.dictGet prog st.db.installed = some r →
      Appman.dictGet prog st.db.dependences = some (b :: bs) →
      Appman.remove env prog st =
        (Appman.PRes.ret false,
          Appman.addMsg (Appman.Msg.cannotRemoveNeeded prog (b :: bs)) st) ∧
      (Appman.addMsg (Appman.Msg.cannotRemoveNeeded prog (b :: bs)) st).db =
        st.db ∧
      (Appman.addMsg (Appman.Msg.cannotRemoveNeeded prog (b :: bs)) st).saved =
        st.saved) ∧
    (∀ (env : Appman.Env) (P B : String) (st : Appman.St)
        (rP rB : Appman.InstalledRecord),
      P ≠ B →
      Appman.dictGet P st.db.installed = some rP →
      Appman.dictGet B st.db.installed = some rB →
      Appman.dictGet P st.db.dependences = some [B] →
      (Appman.dictGet B st.db.dependences = none ∨
        Appman.dictGet B st.db.dependences = some []) →
      B ∈ env.registry → P ∈ env.registry →
      env.removeAct B = Appman.RemOutcome.success →
      env.removeAct P = Appman.RemOutcome.success →
      (Appman.dictKeys st.db.installed).Nodup →
      (Appman.dictKeys st.db.dependences).Nodup →
      (∀ q l, Appman.dictGet q st.db.dependences = some l →
        Appman.countOcc P l ≤ 1) →
      (Appman.remove env B st).1 = Appman.PRes.ret true ∧
      Appman.dictGet P (Appman.remove env B st).2.db.dependences = some [] ∧
      (Appman.remove env P (Appman.remove env B st).2).1 =
        Appman.PRes.ret true ∧
      Appman.dictGet P
        (Appman.remove env P (Appman.remove env B st).2).2.db.installed =
        none ∧
      Appman.dictGet P
        (Appman.remove env P (Appman.remove env B st).2).2.db.dependences =
        none ∧
      (∀ q l, Appman.dictGet q
          (Appman.remove env P (Appman.remove env B st).2).2.db.dependences =
            some l →
        P ∉ l)) := by
  constructor
  · intro env prog st r b bs hI hD
    refine ⟨?_, rfl, rfl⟩
    unfold Appman.remove
    rw [hI, hD]
  · intro env P B st rP rB hPB hIP hIB hDP hDB hRegB hRegP hActB hActP
      hNodI hNodD hCount
    have hremB := Appman.remove_success_eq env B st rB hIB hDB hRegB hActB
    have h1 : (Appman.remove env B st).1 = Appman.PRes.ret true := by
      rw [hremB]
    have hdepsB : (Appman.remove env B st).2.db.dependences =
        (Appman.dictPop B st.db.dependences).map
          (fun kv => (kv.1, Appman.listRemove B kv.2)) := by
      rw [hremB]
      rfl
    have hinstB : (Appman.remove env B st).2.db.installed =
        Appman.dictPop B st.db.installed := by
      rw [hremB]
      rfl
    have hP1 : Appman.dictGet P (Appman.remove env B st).2.db.dependences =
        some [] := by
      rw [hdepsB, Appman.dictGet_mapVal,
        Appman.dictGet_dictPop_ne B P _ hPB, hDP]
      simp [Appman.listRemove]
    have hIP1 : Appman.dictGet P (Appman.remove env B st).2.db.installed =
        some rP := by
      rw [hinstB, Appman.dictGet_dictPop_ne B P _ hPB, hIP]
    have hremP := Appman.remove_success_eq env P (Appman.remove env B st).2 rP
      hIP1 (Or.inr hP1) hRegP hActP
    have h3 : (Appman.remove env P (Appman.remove env B st).2).1 =
        Appman.PRes.ret true := by
      rw [hremP]
    have hNodI1 : (Appman.dictKeys
        (Appman.remove env B st).2.db.installed).Nodup := by
      rw [hinstB]
      exact Appman.nodup_dictKeys_dictPop B _ hNodI
    have hNodD1 : (Appman.dictKeys
        (Appman.remove env B st).2.db.dependences).Nodup := by
      rw [hdepsB, Appman.dictKeys_mapVal]
      exact Appman.nodup_dictKeys_dictPop B _ hNodD
    have hinstP : (Appman.remove env P (Appman.remove env B st).2).2.db.installed =
        Appman.dictPop P (Appman.remove env B st).2.db.installed := by
      rw [hremP]
      rfl
    have hdepsP : (Appman.remove env P (Appman.remove env B st).2).2.db.dependences =
        (Appman.dictPop P (Appman.remove env B st).2.db.dependences).map
          (fun kv => (kv.1, Appman.listRemove P kv.2)) := by
      rw [hremP]
      rfl
    have h4 : Appman.dictGet P
        (Appman.remove env P (Appman.remove env B st).2).2.db.installed =
        none := by
      rw [hinstP]
      exact Appman.dictGet_dictPop_self P _ hNodI1
    have h5 : Appman.dictGet P
        (Appman.remove env P (Appman.remove env B st).2).2.db.dependences =
        none := by
      rw [hdepsP, Appman.dictGet_mapVal,
        Appman.dictGet_dictPop_self P _ hNodD1]
      rfl
    refine ⟨h1, hP1, h3, h4, h5, ?_⟩
    intro q l hql
    rw [hdepsP, Appman.dictGet_mapVal] at hql
    rcases Option.map_eq_some'.mp hql with ⟨l1, hq1, hfl⟩
    by_cases hqP : q = P
    · rw [hqP, Appman.dictGet_dictPop_self P _ hNodD1] at hq1
      cases hq1
    · rw [Appman.dictGet_dictPop_ne P q _ hqP] at hq1
      rw [hdepsB, Appman.dictGet_mapVal] at hq1
      rcases Option.map_eq_some'.mp hq1 with ⟨l0, hq0, hfl1⟩
      by_cases hqB : q = B
      · rw [hqB, Appman.dictGet_dictPop_self B _ hNodD] at hq0
        cases hq0
      · rw [Appman.dictGet_dictPop_ne B q _ hqB] at hq0
        have hc0 := hCount q l0 hq0
        have hc1 : Appman.countOcc P l1 ≤ 1 := by
          rw [← hfl1]
          exact le_trans (Appman.countOcc_listRemove_le P B l0) hc0
        rw [← hfl]
        exact Appman.not_mem_listRemove P l1 hc1

/-- C5 (witness): the two behaviours evaluated on `envPQ` / `stPQ`
(programs `p` and `q` installed, `q` recorded as the sole dependent of
`p`): removing `p` first is rejected with the ledger untouched; removing
`q` and then `p` succeeds and clears every trace of `p` from the maps. -/
theorem remove_blocked_then_unblocked_witness :
    (Appman.remove Appman.envPQ "p" Appman.stPQ =
        (Appman.PRes.ret false,
          Appman.addMsg (Appman.Msg.cannotRemoveNeeded "p" ["q"]) Appman.stPQ) ∧
      (Appman.addMsg (Appman.Msg.cannotRemoveNeeded "p" ["q"]) Appman.stPQ).db =
        Appman.stPQ.db ∧
      (Appman.addMsg (Appman.Msg.cannotRemoveNeeded "p" ["q"]) Appman.stPQ).saved =
        Appman.stPQ.saved) ∧
    ((Appman.remove Appman.envPQ "q" Appman.stPQ).1 = Appman.PRes.ret true ∧
      Appman.dictGet "p"
        (Appman.remove Appman.envPQ "q" Appman.stPQ).2.db.dependences =
        some [] ∧
      (Appman.remove Appman.envPQ "p"
          (Appman.remove Appman.envPQ "q" Appman.stPQ).2).1 =
        Appman.PRes.ret true ∧
      Appman.dictGet "p"
        (Appman.remove Appman.envPQ "p"
          (Appman.remove Appman.envPQ "q" Appman.stPQ).2).2.db.installed =
        none ∧
      Appman.dictGet "p"
        (Appman.remove Appman.envPQ "p"
          (Appman.remove Appman.envPQ "q" Appman.stPQ).2).2.db.dependences =
        none ∧
      (∀ q l, Appman.dictGet q
          (Appman.remove Appman.envPQ "p"
            (Appman.remove Appman.envPQ "q" Appman.stPQ).2).2.db.dependences =
            some l →
        "p" ∉ l)) := by
  constructor
  · exact remove_blocked_then_unblocked.1 Appman.envPQ "p" Appman.stPQ
      Appman.recA "q" [] (by decide) (by decide)
  · refine remove_blocked_then_unblocked.2 Appman.envPQ "p" "q" Appman.stPQ
      Appman.recA Appman.recB (by decide) (by decide) (by decide) (by decide)
      (Or.inl (by decide)) (by decide) (by decide) rfl rfl (by decide)
      (by decide) ?_
    intro q l h
    by_cases hq : "p" = q
    · have hl : l = ["q"] := by
        rw [← hq] at h
        have hd : Appman.dictGet "p" Appman.stPQ.db.dependences = some ["q"] := by
          decide
        rw [hd] at h
        cases h
        rfl
      rw [hl]
      decide
    · have : Appman.dictGet q Appman.stPQ.db.dependences = none := by
        show Appman.dictGet q [("p", ["q"])] = none
        unfold Appman.dictGet
        rw [if_neg hq]
        rfl
      rw [this] at h
      cases h

/-- C9: a catalogue accepted by the startup validation (which raises
`ImplementationError` on the first violation) satisfies all the listed
invariants: program keys and meta keys are disjoint, no profile depends on
its own name, every dependency name and every meta member is a registered
program key, and every meta group is non-empty and does not contain its
own name. -/
theorem validateCatalogue_ok_invariants :
    ∀ (c : Profiles.Catalogue),
      Profiles.validateCatalogue c = Except.ok () →
      ((∀ p ∈ c.profiles, ∀ m ∈ c.metas,
          Profiles.lowerKey p.name ≠ Profiles.lowerKey m.name) ∧
       (∀ p ∈ c.profiles, Profiles.lowerKey p.name ∉ p.dependences) ∧
       (∀ p ∈ c.profiles, ∀ d ∈ p.dependences, d ∈ Profiles.progKeys c) ∧
       (∀ m ∈ c.metas, ∀ x ∈ m.programs, x ∈ Profiles.progKeys c) ∧
       (∀ m ∈ c.metas, m.programs ≠ [] ∧
          Profiles.lowerKey m.name ∉ m.programs)) := by
  intro c h
  unfold Profiles.validateCatalogue at h
  split_ifs at h with h1 h2 h3 h4 h5
  cases hm : Profiles.firstErr
        (Profiles.checkMeta (Profiles.progKeys c)) c.metas with
    | error e =>
      rw [hm] at h
      cases h
    | ok u =>
      cases u
      rw [hm] at h
      have hprof := Profiles.firstErr_ok
        (Profiles.checkProfile (Profiles.progKeys c)) c.profiles h
      have hmeta := Profiles.firstErr_ok
        (Profiles.checkMeta (Profiles.progKeys c)) c.metas hm
      have hdisj : ∀ k ∈ Profiles.progKeys c, k ∉ Profiles.metaKeys c := by
        have hb : (Profiles.progKeys c).all
            (fun k => k ∉ Profiles.metaKeys c) = true := by
          cases hbb : (Profiles.progKeys c).all
              (fun k => k ∉ Profiles.metaKeys c) with
          | true => rfl
          | false => exact absurd (by rw [hbb]; rfl) h5
        intro k hk
        simpa using List.all_eq_true.mp hb k hk
      refine ⟨?_, ?_, ?_, ?_, ?_⟩
      · intro p hp m hm2 heq
        have hpk : Profiles.lowerKey p.name ∈ Profiles.progKeys c :=
          List.mem_dedup.mpr (List.mem_map_of_mem _ hp)
        have hmk : Profiles.lowerKey m.name ∈ Profiles.metaKeys c :=
          List.mem_dedup.mpr (List.mem_map_of_mem _ hm2)
        exact hdisj _ hpk (heq ▸ hmk)
      · intro p hp
        exact (Profiles.checkProfile_ok _ p (hprof p hp)).1
      · intro p hp
        exact (Profiles.checkProfile_ok _ p (hprof p hp)).2
      · intro m hm2
        exact (Profiles.checkMeta_ok _ m (hmeta m hm2)).2.2
      · intro m hm2
        exact ⟨(Profiles.checkMeta_ok _ m (hmeta m hm2)).1,
          (Profiles.checkMeta_ok _ m (hmeta m hm2)).2.1⟩

/-- C9 (witness): the invariants hold of the concrete catalogue `catOk`,
which the validation accepts. -/
theorem validateCatalogue_ok_invariants_witness :
    (∀ p ∈ Profiles.catOk.profiles, ∀ m ∈ Profiles.catOk.metas,
        Profiles.lowerKey p.name ≠ Profiles.lowerKey m.name) ∧
    (∀ p ∈ Profiles.catOk.profiles,
        Profiles.lowerKey p.name ∉ p.dependences) ∧
    (∀ p ∈ Profiles.catOk.profiles, ∀ d ∈ p.dependences,
        d ∈ Profiles.progKeys Profiles.catOk) ∧
    (∀ m ∈ Profiles.catOk.metas, ∀ x ∈ m.programs,
        x ∈ Profiles.progKeys Profiles.catOk) ∧
    (∀ m ∈ Profiles.catOk.metas, m.programs ≠ [] ∧
        Profiles.lowerKey m.name ∉ m.programs) :=
  validateCatalogue_ok_invariants Profiles.catOk rfl
